import Mathlib

/-!
# xredis: failover client over a pool of redis instances

A shallow embedding of `xredis.go`: the option record and its defaulting
(`ClusterOptions.init`), the construction of the per-instance option records
(`NewClusterClient`), the two-level retry loop (`ClusterClient.Process`) and the
aggregation of pool counters (`ClusterClient.PoolStats`).

Conventions.
* Go's `int` and `time.Duration` are 64-bit signed integers.  They are embedded
  as `Int`; the only arithmetic the program performs on them is the `i++` of the
  two loop counters of `Process`, which is embedded with an explicit
  two's-complement wrap (`wrapInt`).
* The `uint32` counters of `redis.PoolStats` are embedded as `Nat` with an
  explicit `% 2^32` on every addition.
* The balancer and the redis client are external packages.  Their behaviour
  enters `Process` as a parameter (`Backend`): a state type with a `next`
  function (`balancer.Next`) and an `exec` function (`redis.Client.Process`).
* Function values and pointers that are only copied (`Dialer`, `TLSConfig`) are
  embedded as optional identifiers, `none` being `nil`.
-/

namespace XRedis

/-! ## Machine integers -/

/-- Largest value of a 64-bit `int`. -/
def intMax : Int := 9223372036854775807

/-- Two's-complement wrap into the range of a 64-bit `int`. -/
def wrapInt (x : Int) : Int :=
  (x + 9223372036854775808) % 18446744073709551616 - 9223372036854775808

/-- Addition of two `uint32` values. -/
def addU32 (a b : Nat) : Nat := (a + b) % 4294967296

/-! ## Option records -/

/-- The fields of `redis.Options` that `NewClusterClient` fills in or leaves at
their zero value. -/
structure RedisOptions where
  Network : String
  Addr : String
  Dialer : Option Nat
  Password : String
  DB : Int
  MaxRetries : Int
  DialTimeout : Int
  ReadTimeout : Int
  WriteTimeout : Int
  PoolSize : Int
  PoolTimeout : Int
  IdleTimeout : Int
  IdleCheckFrequency : Int
  ReadOnly : Bool
  TLSConfig : Option Nat
  deriving DecidableEq, Repr

/-- The record `balancer.Options`: the embedded `redis.Options` and the
health-check settings. -/
structure BalancerOptions where
  Options : RedisOptions
  CheckInterval : Int
  Rise : Int
  Fall : Int
  deriving DecidableEq, Repr

/-- The record `ClusterOptions`. -/
structure ClusterOptions where
  Addrs : List String
  CheckInterval : Int
  Rise : Int
  Fall : Int
  /-- A value of the external type `balancer.BalanceMode`, `0` being its zero value. -/
  Mode : Nat
  FailoverRetries : Int
  Network : String
  Dialer : Option Nat
  Password : String
  DB : Int
  MaxRetries : Int
  DialTimeout : Int
  ReadTimeout : Int
  WriteTimeout : Int
  PoolSize : Int
  PoolTimeout : Int
  IdleTimeout : Int
  IdleCheckFrequency : Int
  ReadOnly : Bool
  TLSConfig : Option Nat
  deriving DecidableEq, Repr

/-- Modelled from the spec: the mode constant `balancer.ModeRoundRobin` (round-robin,
the default selection policy), which is declared in the external balancer package and
is absent from the sources.  It stands for a fixed mode value; no statement below
depends on which one. -/
def ModeRoundRobin : Nat := 5

/-- The value `len(clopt.Addrs)`. -/
def ClusterOptions.lenAddrs (clopt : ClusterOptions) : Int := (clopt.Addrs.length : Int)

/-- The method `ClusterOptions.init`: the three defaulting steps in source order. -/
def ClusterOptions.init (clopt : ClusterOptions) : ClusterOptions :=
  let c1 := if clopt.FailoverRetries = 0 then { clopt with FailoverRetries := 3 } else clopt
  let c2 := if c1.FailoverRetries > c1.lenAddrs then { c1 with FailoverRetries := c1.lenAddrs } else c1
  if c2.Mode = 0 then { c2 with Mode := ModeRoundRobin } else c2

/-- The composite literal `balancer.Options{...}` of `NewClusterClient` for one
address.  Fields the literal does not mention (`WriteTimeout`, `ReadOnly`) take
their zero value; `MaxRetries` is written as the constant `0`. -/
def mkOpt (clopt : ClusterOptions) (addr : String) : BalancerOptions :=
  { Options :=
      { Network := clopt.Network
        Addr := addr
        Dialer := clopt.Dialer
        Password := clopt.Password
        DB := clopt.DB
        MaxRetries := 0
        DialTimeout := clopt.DialTimeout
        ReadTimeout := clopt.ReadTimeout
        WriteTimeout := 0
        PoolSize := clopt.PoolSize
        PoolTimeout := clopt.PoolTimeout
        IdleTimeout := clopt.IdleTimeout
        IdleCheckFrequency := clopt.IdleCheckFrequency
        ReadOnly := false
        TLSConfig := clopt.TLSConfig }
    CheckInterval := clopt.CheckInterval
    Rise := clopt.Rise
    Fall := clopt.Fall }

/-- The loop `for i := 0; i < len(clopt.Addrs); i++ { opts = append(opts, opt) }`.
The first argument bounds the number of iterations still to run; the loop is
started with `len(clopt.Addrs)` of them, which the guard `i < len` never exceeds. -/
def optsLoop (clopt : ClusterOptions) : Nat → Nat → List BalancerOptions → List BalancerOptions
  | 0, _, opts => opts
  | k + 1, i, opts =>
    match clopt.Addrs[i]? with
    | some addr => optsLoop clopt k (i + 1) (opts ++ [mkOpt clopt addr])
    | none => opts

/-- The slice `opts` after the options-building loop of `NewClusterClient`. -/
def buildOpts (clopt : ClusterOptions) : List BalancerOptions :=
  optsLoop clopt clopt.Addrs.length 0 []

/-- The arguments of `balancer.New`: the slice `opts` as the options-building loop
leaves it, and the mode.  What the external packages do with them is not embedded. -/
structure Balancer where
  opts : List BalancerOptions
  mode : Nat
  deriving DecidableEq, Repr

/-- The record `ClusterClient`: the surface client (represented by the options it
was created from), the balancer and the option record. -/
structure ClusterClient where
  Client : RedisOptions
  balance : Balancer
  clopt : ClusterOptions
  deriving DecidableEq, Repr

/-- The function `NewClusterClient`.  The index expression `opts[0]` panics when
`opts` is empty; the panic is the result `none`. -/
def NewClusterClient (clopt0 : ClusterOptions) : Option ClusterClient :=
  let clopt := clopt0.init
  let opts := buildOpts clopt
  match opts[0]? with
  | none => none
  | some o0 =>
    some { Client := o0.Options
           balance := { opts := opts, mode := clopt.Mode }
           clopt := clopt }

/-! ## Pool counters -/

/-- The record `redis.PoolStats`: five `uint32` counters. -/
structure PoolStats where
  Requests : Nat
  Hits : Nat
  Timeouts : Nat
  TotalConns : Nat
  FreeConns : Nat
  deriving DecidableEq, Repr

/-- One iteration of the loop of `ClusterClient.PoolStats`. -/
def PoolStats.accumulate (acc s : PoolStats) : PoolStats :=
  { Requests := addU32 acc.Requests s.Requests
    Hits := addU32 acc.Hits s.Hits
    Timeouts := addU32 acc.Timeouts s.Timeouts
    TotalConns := addU32 acc.TotalConns s.TotalConns
    FreeConns := addU32 acc.FreeConns s.FreeConns }

/-- The method `ClusterClient.PoolStats`, given the counters that
`backend.GetClient().PoolStats()` reports for each instance of
`c.balance.GetSelector()`, in order. -/
def ClusterClient.PoolStats (perInstance : List PoolStats) : PoolStats :=
  perInstance.foldl PoolStats.accumulate
    { Requests := 0, Hits := 0, Timeouts := 0, TotalConns := 0, FreeConns := 0 }

/-! ## Command dispatch -/

/-- The values of Go's `error` that `Process` distinguishes: `nil`, the sentinel
`redis.Nil`, and every other error. -/
inductive Err where
  | nil
  | redisNil
  | other (code : Nat)
  deriving DecidableEq, Repr

/-- An error other than `nil` and `redis.Nil`. -/
def Err.isFailure : Err → Bool
  | Err.other _ => true
  | _ => false

/-- The external collaborators of `Process` over a state type `σ`: `next` is
`c.balance.Next()` (the selected instance and the new state) and `exec inst` is
`client.Process(cmd)` on instance `inst` (the error and the new state). -/
structure Backend (σ : Type) where
  next : σ → Nat × σ
  exec : Nat → σ → Err × σ

/-- What `Process` does to its collaborators, in order. -/
inductive Event where
  | next (inst : Nat)
  | exec (inst : Nat) (err : Err)
  deriving DecidableEq, Repr

/-- How a loop is left: `ret e` is `return e` out of `Process`, `done e` is the
loop condition becoming false with `err = e`, `spin` is the iteration budget of
the embedding running out while the loop is still going. -/
inductive Ctl where
  | ret (e : Err)
  | done (e : Err)
  | spin
  deriving DecidableEq, Repr

/-- The inner loop `for j := 0; j <= MaxRetries; j++` from counter value `j`,
with `err` the current value of the variable `err`.  The first argument is the
iteration budget. -/
def innerLoop {σ : Type} (B : Backend σ) (M : Int) (client : Nat) :
    Nat → Int → Err → σ → Ctl × σ × List Event
  | 0, _, _, s => (Ctl.spin, s, [])
  | fuel + 1, j, err, s =>
    if j ≤ M then
      let r := B.exec client s
      if r.1 = Err.nil ∨ r.1 = Err.redisNil then
        (Ctl.ret r.1, r.2, [Event.exec client r.1])
      else
        let rest := innerLoop B M client fuel (wrapInt (j + 1)) r.1 r.2
        (rest.1, rest.2.1, Event.exec client r.1 :: rest.2.2)
    else
      (Ctl.done err, s, [])

/-- The outer loop `for i := 0; i <= FailoverRetries; i++` from counter value `i`.
The first argument is the iteration budget of this loop, `inner` that of each
inner loop. -/
def outerLoop {σ : Type} (B : Backend σ) (R M : Int) (inner : Nat) :
    Nat → Int → Err → σ → Ctl × σ × List Event
  | 0, _, _, s => (Ctl.spin, s, [])
  | fuel + 1, i, err, s =>
    if i ≤ R then
      let n := B.next s
      let r := innerLoop B M n.1 inner 0 err n.2
      match r.1 with
      | Ctl.ret e => (Ctl.ret e, r.2.1, Event.next n.1 :: r.2.2)
      | Ctl.spin => (Ctl.spin, r.2.1, Event.next n.1 :: r.2.2)
      | Ctl.done e =>
        let rest := outerLoop B R M inner fuel (wrapInt (i + 1)) e r.2.1
        (rest.1, rest.2.1, Event.next n.1 :: (r.2.2 ++ rest.2.2))
    else
      (Ctl.ret err, s, [])

/-- The outcome of a run of `Process` under an iteration budget: the returned
error (`none` while the call has not returned), the final state and the calls
made so far. -/
structure Run (σ : Type) where
  result : Option Err
  state : σ
  trace : List Event

/-- The body of `ClusterClient.Process` for given `FailoverRetries` and
`MaxRetries`: `var err error` is `nil`, then the two nested loops, then
`return err`. -/
def processWith {σ : Type} (B : Backend σ) (R M : Int) (fuel : Nat) (s : σ) : Run σ :=
  let r := outerLoop B R M fuel fuel 0 Err.nil s
  { result := match r.1 with
      | Ctl.ret e => some e
      | _ => none
    state := r.2.1
    trace := r.2.2 }

/-- The method `ClusterClient.Process`: the limits are read from `c.clopt`. -/
def ClusterClient.Process {σ : Type} (c : ClusterClient) (B : Backend σ) (fuel : Nat) (s : σ) :
    Run σ :=
  processWith B c.clopt.FailoverRetries c.clopt.MaxRetries fuel s

/-- The instances returned by the `Next()` calls of a trace, in order. -/
def selections : List Event → List Nat
  | [] => []
  | Event.next inst :: t => inst :: selections t
  | Event.exec _ _ :: t => selections t

/-- The executions of a trace, in order: the instance and the error returned. -/
def executions : List Event → List (Nat × Err)
  | [] => []
  | Event.next _ :: t => executions t
  | Event.exec inst e :: t => (inst, e) :: executions t

/-- The zero value of `ClusterOptions` (every field unset). -/
def ClusterOptions.zero : ClusterOptions :=
  { Addrs := [], CheckInterval := 0, Rise := 0, Fall := 0, Mode := 0, FailoverRetries := 0,
    Network := "", Dialer := none, Password := "", DB := 0, MaxRetries := 0, DialTimeout := 0,
    ReadTimeout := 0, WriteTimeout := 0, PoolSize := 0, PoolTimeout := 0, IdleTimeout := 0,
    IdleCheckFrequency := 0, ReadOnly := false, TLSConfig := none }

/-! ## Reference runs and concrete collaborators -/

/-- The state after `k` executions of the command on instance `client`. -/
def execState {σ : Type} (B : Backend σ) (client : Nat) : Nat → σ → σ
  | 0, s => s
  | k + 1, s => execState B client k (B.exec client s).2

/-- The value of `err`, the state and the calls made after `k` consecutive
executions on instance `client`, none of which ends the loop. -/
def innerRun {σ : Type} (B : Backend σ) (client : Nat) : Nat → Err → σ → Err × σ × List Event
  | 0, err, s => (err, s, [])
  | k + 1, _, s =>
    let r := B.exec client s
    let rest := innerRun B client k r.1 r.2
    (rest.1, rest.2.1, Event.exec client r.1 :: rest.2.2)

/-- The value of `err`, the state and the calls made after `n` rounds, each a
`Next()` followed by `k` executions on the selected instance. -/
def outerRun {σ : Type} (B : Backend σ) (k : Nat) : Nat → Err → σ → Err × σ × List Event
  | 0, err, s => (err, s, [])
  | n + 1, err, s =>
    let x := B.next s
    let r := innerRun B x.1 k err x.2
    let rest := outerRun B k n r.1 r.2.1
    (rest.1, rest.2.1, Event.next x.1 :: (r.2.2 ++ rest.2.2))

/-- The error of the last execution of a trace, `err` when it has none. -/
def lastErr : List Event → Err → Err
  | [], err => err
  | Event.next _ :: t, err => lastErr t err
  | Event.exec _ e :: t, _ => lastErr t e

/-- Modelled from the spec: round-robin selection over `N` instances with a shared
cursor (the selector of the external balancer package).  `Next()` returns the
instance at the cursor modulo `N` and advances the cursor by one; executing a
command leaves the cursor alone. -/
structure IsRoundRobin {σ : Type} (B : Backend σ) (N : Nat) (cursor : σ → Nat) : Prop where
  next_inst : ∀ s, (B.next s).1 = cursor s % N
  next_cursor : ∀ s, cursor (B.next s).2 = cursor s + 1
  exec_cursor : ∀ inst s, cursor (B.exec inst s).2 = cursor s

/-- A round-robin pool of `N` instances on which every execution fails; the state
is the cursor and instance `i` answers with the error `other i`. -/
def rrFailing (N : Nat) : Backend Nat :=
  { next := fun c => (c % N, c + 1)
    exec := fun inst c => (Err.other inst, c) }

/-- A round-robin pool of `N` instances on which the first `m` executions fail and
every later one succeeds; the state is the cursor and the number of executions. -/
def rrFailsThenOk (N m : Nat) : Backend (Nat × Nat) :=
  { next := fun s => (s.1 % N, (s.1 + 1, s.2))
    exec := fun _ s => (if s.2 < m then Err.other 1 else Err.nil, (s.1, s.2 + 1)) }

/-- A round-robin pool of `N` instances on which every execution answers
`redis.Nil`. -/
def rrNoValue (N : Nat) : Backend Nat :=
  { next := fun c => (c % N, c + 1)
    exec := fun _ c => (Err.redisNil, c) }

/-- Options with the single address `127.0.0.1:6379`, the given `FailoverRetries`
and `MaxRetries`, and every other field unset. -/
def oneAddr (failoverRetries maxRetries : Int) : ClusterOptions :=
  { ClusterOptions.zero with
    Addrs := ["127.0.0.1:6379"], FailoverRetries := failoverRetries, MaxRetries := maxRetries }

/-- A client whose option record holds the given effective `FailoverRetries` and
`MaxRetries`, every other field unset. -/
def clientWith (failoverRetries maxRetries : Int) : ClusterClient :=
  { Client := (mkOpt ClusterOptions.zero "127.0.0.1:6379").Options
    balance := { opts := [mkOpt ClusterOptions.zero "127.0.0.1:6379"], mode := ModeRoundRobin }
    clopt :=
      { ClusterOptions.zero with
        Addrs := ["127.0.0.1:6379"], Mode := ModeRoundRobin,
        FailoverRetries := failoverRetries, MaxRetries := maxRetries } }

/-- Options with the given addresses, `FailoverRetries` and `MaxRetries`, and every
other field unset. -/
def poolOptions (addrs : List String) (failoverRetries maxRetries : Int) : ClusterOptions :=
  { ClusterOptions.zero with
    Addrs := addrs, FailoverRetries := failoverRetries, MaxRetries := maxRetries }

/-! ## Defaulting and construction -/

theorem init_Addrs (o : ClusterOptions) : o.init.Addrs = o.Addrs := by
  unfold ClusterOptions.init
  simp only []
  split_ifs <;> rfl

theorem init_MaxRetries (o : ClusterOptions) : o.init.MaxRetries = o.MaxRetries := by
  unfold ClusterOptions.init
  simp only []
  split_ifs <;> rfl

theorem init_FailoverRetries (o : ClusterOptions) :
    o.init.FailoverRetries
      = min (if o.FailoverRetries = 0 then 3 else o.FailoverRetries) o.lenAddrs := by
  unfold ClusterOptions.init ClusterOptions.lenAddrs
  simp only []
  split_ifs <;> simp_all <;> omega

theorem optsLoop_eq (clopt : ClusterOptions) :
    ∀ (k i : Nat) (opts : List BalancerOptions), i + k = clopt.Addrs.length →
      optsLoop clopt k i opts = opts ++ (clopt.Addrs.drop i).map (mkOpt clopt) := by
  intro k
  induction k with
  | zero =>
    intro i opts h
    have hi : clopt.Addrs.length ≤ i := by omega
    simp [optsLoop, List.drop_eq_nil_of_le hi]
  | succ k ih =>
    intro i opts h
    have hi : i < clopt.Addrs.length := by omega
    have hd : clopt.Addrs.drop i = clopt.Addrs[i] :: clopt.Addrs.drop (i + 1) :=
      List.drop_eq_getElem_cons hi
    simp only [optsLoop, List.getElem?_eq_getElem hi]
    rw [ih (i + 1) _ (by omega), hd]
    simp only [List.map_cons, List.append_assoc, List.singleton_append]

theorem buildOpts_eq (clopt : ClusterOptions) :
    buildOpts clopt = clopt.Addrs.map (mkOpt clopt) := by
  unfold buildOpts
  rw [optsLoop_eq clopt _ 0 [] (by omega)]
  simp

theorem newClusterClient_eq (o : ClusterOptions) :
    NewClusterClient o
      = match (o.Addrs.map (mkOpt o.init))[0]? with
        | none => none
        | some o0 =>
          some { Client := o0.Options
                 balance := { opts := o.Addrs.map (mkOpt o.init), mode := o.init.Mode }
                 clopt := o.init } := by
  unfold NewClusterClient
  simp only [buildOpts_eq, init_Addrs]

theorem accumulate_foldl_snoc (l : List PoolStats) (x acc : PoolStats) :
    (l ++ [x]).foldl PoolStats.accumulate acc
      = PoolStats.accumulate (l.foldl PoolStats.accumulate acc) x := by
  simp [List.foldl_append]

theorem poolStats_fields (l : List PoolStats) :
    (ClusterClient.PoolStats l).Requests = (l.map (fun s => s.Requests)).sum % 4294967296
    ∧ (ClusterClient.PoolStats l).Hits = (l.map (fun s => s.Hits)).sum % 4294967296
    ∧ (ClusterClient.PoolStats l).Timeouts = (l.map (fun s => s.Timeouts)).sum % 4294967296
    ∧ (ClusterClient.PoolStats l).TotalConns = (l.map (fun s => s.TotalConns)).sum % 4294967296
    ∧ (ClusterClient.PoolStats l).FreeConns = (l.map (fun s => s.FreeConns)).sum % 4294967296 := by
  induction l using List.reverseRecOn with
  | nil => simp [ClusterClient.PoolStats]
  | append_singleton l x ih =>
    obtain ⟨h1, h2, h3, h4, h5⟩ := ih
    unfold ClusterClient.PoolStats at h1 h2 h3 h4 h5 ⊢
    rw [accumulate_foldl_snoc]
    simp only [PoolStats.accumulate, addU32, h1, h2, h3, h4, h5, List.map_append, List.map_cons,
      List.map_nil, List.sum_append, List.sum_cons, List.sum_nil, Nat.add_zero]
    refine ⟨?_, ?_, ?_, ?_, ?_⟩ <;> omega

/-! ## Claims about defaulting, construction and counters -/

/-- C4: after `ClusterOptions.init` the effective `FailoverRetries` is `min(f', n)` with
`n = len(Addrs)`, `f' = 3` when the configured value `f` is `0` and `f' = f` otherwise; it
never exceeds `n`, it is `min(3, n)` when left unset, and a configured `5` with two
addresses becomes `2`. -/
theorem C4_init_clamps_failoverRetries (o : ClusterOptions) :
    o.init.FailoverRetries
        = min (if o.FailoverRetries = 0 then 3 else o.FailoverRetries) o.lenAddrs
    ∧ o.init.FailoverRetries ≤ o.lenAddrs
    ∧ ({ o with FailoverRetries := 0 } : ClusterOptions).init.FailoverRetries = min 3 o.lenAddrs
    ∧ (∀ a b : String,
        ({ o with Addrs := [a, b], FailoverRetries := 5 } : ClusterOptions).init.FailoverRetries
          = 2) := by
  refine ⟨init_FailoverRetries o, ?_, ?_, ?_⟩
  · rw [init_FailoverRetries]
    exact min_le_right _ _
  · rw [init_FailoverRetries]
    simp [ClusterOptions.lenAddrs]
  · intro a b
    rw [init_FailoverRetries]
    simp [ClusterOptions.lenAddrs]

/-- C5: for every sequence of per-instance counters, each of the five counters returned by
`ClusterClient.PoolStats` is the sum of that counter over all instances modulo `2^32`; the
per-instance values `{req:1,hit:1}`, `{req:2,hit:0}`, `{req:0,hit:0}` give `{req:3,hit:1}`
and the empty sequence gives all zeros. -/
theorem C5_poolStats_sums (l : List PoolStats) :
    ((ClusterClient.PoolStats l).Requests = (l.map (fun s => s.Requests)).sum % 2 ^ 32
      ∧ (ClusterClient.PoolStats l).Hits = (l.map (fun s => s.Hits)).sum % 2 ^ 32
      ∧ (ClusterClient.PoolStats l).Timeouts = (l.map (fun s => s.Timeouts)).sum % 2 ^ 32
      ∧ (ClusterClient.PoolStats l).TotalConns = (l.map (fun s => s.TotalConns)).sum % 2 ^ 32
      ∧ (ClusterClient.PoolStats l).FreeConns = (l.map (fun s => s.FreeConns)).sum % 2 ^ 32)
    ∧ ClusterClient.PoolStats
        [{ Requests := 1, Hits := 1, Timeouts := 0, TotalConns := 0, FreeConns := 0 },
         { Requests := 2, Hits := 0, Timeouts := 0, TotalConns := 0, FreeConns := 0 },
         { Requests := 0, Hits := 0, Timeouts := 0, TotalConns := 0, FreeConns := 0 }]
        = { Requests := 3, Hits := 1, Timeouts := 0, TotalConns := 0, FreeConns := 0 }
    ∧ ClusterClient.PoolStats []
        = { Requests := 0, Hits := 0, Timeouts := 0, TotalConns := 0, FreeConns := 0 } := by
  refine ⟨?_, by decide, by decide⟩
  have h := poolStats_fields l
  norm_num
  exact h

/-- C8 (the code at the failing input): with one address and `WriteTimeout` configured as
five seconds, the per-instance option record built by `NewClusterClient` has `WriteTimeout`
zero, not the configured value; the composite literal never copies the field. -/
theorem C8_writeTimeout_not_copied :
    (NewClusterClient
        { ClusterOptions.zero with Addrs := ["127.0.0.1:6379"], WriteTimeout := 5000000000 }).map
      (fun c => c.balance.opts.map (fun r => (r.Options.Addr, r.Options.WriteTimeout)))
      = some [("127.0.0.1:6379", 0)] := by
  decide

/-- C10: after the options-building loop `len(opts) = len(Addrs)`; `opts[0]` is in bounds
exactly when there is at least one address, and `NewClusterClient` panics exactly when
`Addrs` is empty. -/
theorem C10_opts_length_and_panic (o : ClusterOptions) :
    (buildOpts o.init).length = o.Addrs.length
    ∧ (((buildOpts o.init)[0]?).isSome ↔ 1 ≤ o.Addrs.length)
    ∧ (NewClusterClient o = none ↔ o.Addrs = []) := by
  rw [newClusterClient_eq, buildOpts_eq, init_Addrs]
  refine ⟨by simp, ?_, ?_⟩
  · cases h : o.Addrs <;> simp
  · cases h : o.Addrs <;> simp

/-! ## The retry loops -/

theorem wrapInt_of_range (x : Int) (h1 : -9223372036854775808 ≤ x)
    (h2 : x ≤ 9223372036854775807) : wrapInt x = x := by
  unfold wrapInt
  omega

theorem wrapInt_range (x : Int) :
    -9223372036854775808 ≤ wrapInt x ∧ wrapInt x ≤ 9223372036854775807 := by
  unfold wrapInt
  omega

theorem isFailure_not_stop {e : Err} (h : e.isFailure = true) :
    ¬ (e = Err.nil ∨ e = Err.redisNil) := by
  cases e <;> simp [Err.isFailure] at h ⊢

theorem innerRun_state {σ : Type} (B : Backend σ) (c : Nat) :
    ∀ (k : Nat) (err : Err) (s : σ), (innerRun B c k err s).2.1 = execState B c k s := by
  intro k
  induction k with
  | zero => intro err s; rfl
  | succ k ih => intro err s; simp only [innerRun, execState, ih]

/-- Peeling `k` failing executions off the inner loop. -/
theorem innerLoop_peel {σ : Type} (B : Backend σ) (M : Int) (c : Nat) :
    ∀ (k fuel : Nat) (j : Int) (err : Err) (s : σ),
      (∀ i, i < k → (B.exec c (execState B c i s)).1.isFailure = true) →
      0 ≤ j → j + k ≤ 9223372036854775807 → j + k ≤ M + 1 → k ≤ fuel →
      innerLoop B M c fuel j err s
        = ((innerLoop B M c (fuel - k) (j + k) (innerRun B c k err s).1
              (innerRun B c k err s).2.1).1,
           (innerLoop B M c (fuel - k) (j + k) (innerRun B c k err s).1
              (innerRun B c k err s).2.1).2.1,
           (innerRun B c k err s).2.2
             ++ (innerLoop B M c (fuel - k) (j + k) (innerRun B c k err s).1
                  (innerRun B c k err s).2.1).2.2) := by
  intro k
  induction k with
  | zero =>
    intro fuel j err s _ _ _ _ _
    simp [innerRun]
  | succ k ih =>
    intro fuel j err s hf h0 hmax hM hfuel
    obtain ⟨f, rfl⟩ : ∃ f, fuel = f + 1 := ⟨fuel - 1, by omega⟩
    have hjM : j ≤ M := by push_cast at hM; omega
    have hfail0 := isFailure_not_stop (hf 0 (by omega))
    simp only [execState] at hfail0
    have hw : wrapInt (j + 1) = j + 1 := by
      apply wrapInt_of_range <;> (push_cast at hmax; omega)
    have hrec := ih f (j + 1) (B.exec c s).1 (B.exec c s).2
      (fun i hi => by simpa [execState] using hf (i + 1) (by omega))
      (by omega) (by push_cast at hmax ⊢; omega) (by push_cast at hM ⊢; omega) (by omega)
    have e1 : f + 1 - (k + 1) = f - k := by omega
    have e2 : j + ((k + 1 : Nat) : Int) = j + 1 + (k : Int) := by push_cast; omega
    rw [e1, e2]
    simp only [innerLoop, hjM, if_true, hfail0, if_false, hw, innerRun]
    rw [hrec]
    simp

theorem innerLoop_stop {σ : Type} (B : Backend σ) (M : Int) (c f : Nat) (j : Int) (err : Err)
    (s : σ) (h : ¬ j ≤ M) : innerLoop B M c (f + 1) j err s = (Ctl.done err, s, []) := by
  simp [innerLoop, h]

/-- The inner loop on an instance whose executions all fail: it runs `MaxRetries + 1` times
(not at all for a negative `MaxRetries`) and ends with the loop condition false. -/
theorem innerLoop_exhaust {σ : Type} (B : Backend σ) (M : Int) (c fuel : Nat) (err : Err)
    (s : σ) (hM : M < 9223372036854775807)
    (hf : ∀ i, i < (M + 1).toNat → (B.exec c (execState B c i s)).1.isFailure = true)
    (hfuel : (M + 1).toNat < fuel) :
    innerLoop B M c fuel 0 err s
      = (Ctl.done (innerRun B c (M + 1).toNat err s).1,
         (innerRun B c (M + 1).toNat err s).2.1,
         (innerRun B c (M + 1).toNat err s).2.2) := by
  by_cases hneg : M < 0
  · obtain ⟨f, rfl⟩ : ∃ f, fuel = f + 1 := ⟨fuel - 1, by omega⟩
    have hk : (M + 1).toNat = 0 := by omega
    rw [hk, innerLoop_stop B M c f _ _ _ (by omega)]
    rfl
  · rw [innerLoop_peel B M c (M + 1).toNat fuel 0 err s hf (le_refl 0) (by omega) (by omega)
      (by omega)]
    obtain ⟨f, hf'⟩ : ∃ f, fuel - (M + 1).toNat = f + 1 :=
      ⟨fuel - (M + 1).toNat - 1, by omega⟩
    rw [hf', innerLoop_stop B M c f _ _ _ (by omega)]
    simp

theorem outerLoop_stop {σ : Type} (B : Backend σ) (R M : Int) (inner f : Nat) (i : Int)
    (err : Err) (s : σ) (h : ¬ i ≤ R) :
    outerLoop B R M inner (f + 1) i err s = (Ctl.ret err, s, []) := by
  simp [outerLoop, h]

/-- Peeling `n` rounds off the outer loop when no execution ends the call. -/
theorem outerLoop_peel {σ : Type} (B : Backend σ) (R M : Int) (inner : Nat)
    (hM : M < 9223372036854775807) (hinner : (M + 1).toNat < inner)
    (hf : (M + 1).toNat = 0 ∨ ∀ inst s, (B.exec inst s).1.isFailure = true) :
    ∀ (n fuel : Nat) (i : Int) (err : Err) (s : σ),
      0 ≤ i → i + n ≤ 9223372036854775807 → i + n ≤ R + 1 → n ≤ fuel →
      outerLoop B R M inner fuel i err s
        = ((outerLoop B R M inner (fuel - n) (i + n) (outerRun B (M + 1).toNat n err s).1
              (outerRun B (M + 1).toNat n err s).2.1).1,
           (outerLoop B R M inner (fuel - n) (i + n) (outerRun B (M + 1).toNat n err s).1
              (outerRun B (M + 1).toNat n err s).2.1).2.1,
           (outerRun B (M + 1).toNat n err s).2.2
             ++ (outerLoop B R M inner (fuel - n) (i + n) (outerRun B (M + 1).toNat n err s).1
                  (outerRun B (M + 1).toNat n err s).2.1).2.2) := by
  have hfail : ∀ (c : Nat) (s : σ) (i : Nat), i < (M + 1).toNat →
      (B.exec c (execState B c i s)).1.isFailure = true := by
    intro c s i hi
    rcases hf with h0 | hall
    · omega
    · exact hall _ _
  intro n
  induction n with
  | zero =>
    intro fuel i err s _ _ _ _
    simp [outerRun]
  | succ n ih =>
    intro fuel i err s h0 hmax hR hfuel
    obtain ⟨f, rfl⟩ : ∃ f, fuel = f + 1 := ⟨fuel - 1, by omega⟩
    have hiR : i ≤ R := by push_cast at hR; omega
    have hw : wrapInt (i + 1) = i + 1 := by
      apply wrapInt_of_range <;> (push_cast at hmax; omega)
    have hin := innerLoop_exhaust B M (B.next s).1 inner err (B.next s).2 hM
      (hfail _ _) hinner
    have hrec := ih f (i + 1) (innerRun B (B.next s).1 (M + 1).toNat err (B.next s).2).1
      (innerRun B (B.next s).1 (M + 1).toNat err (B.next s).2).2.1
      (by omega) (by push_cast at hmax ⊢; omega) (by push_cast at hR ⊢; omega) (by omega)
    have e1 : f + 1 - (n + 1) = f - n := by omega
    have e2 : i + ((n + 1 : Nat) : Int) = i + 1 + (n : Int) := by push_cast; omega
    rw [e1, e2]
    simp only [outerLoop, hiR, if_true, hin, hw, outerRun]
    rw [hrec]
    simp

/-- A call of `Process` in which no execution ends the call: both loops run to the end,
`FailoverRetries + 1` rounds of `MaxRetries + 1` executions each (no round, or no
execution, when the limit is negative), and the call returns the last value of `err`. -/
theorem processWith_exhaust {σ : Type} (B : Backend σ) (R M : Int) (fuel : Nat) (s : σ)
    (hR : R < 9223372036854775807) (hM : M < 9223372036854775807)
    (hf : (M + 1).toNat = 0 ∨ ∀ inst s, (B.exec inst s).1.isFailure = true)
    (hfuelR : (R + 1).toNat < fuel) (hfuelM : (M + 1).toNat < fuel) :
    (processWith B R M fuel s).result
        = some (outerRun B (M + 1).toNat (R + 1).toNat Err.nil s).1
    ∧ (processWith B R M fuel s).state = (outerRun B (M + 1).toNat (R + 1).toNat Err.nil s).2.1
    ∧ (processWith B R M fuel s).trace
        = (outerRun B (M + 1).toNat (R + 1).toNat Err.nil s).2.2 := by
  unfold processWith
  by_cases hneg : R < 0
  · obtain ⟨f, rfl⟩ : ∃ f, fuel = f + 1 := ⟨fuel - 1, by omega⟩
    have hn : (R + 1).toNat = 0 := by omega
    rw [hn, outerLoop_stop B R M _ f _ _ _ (by omega)]
    simp [outerRun]
  · rw [outerLoop_peel B R M fuel hM hfuelM hf (R + 1).toNat fuel 0 Err.nil s (le_refl 0)
      (by omega) (by omega) (by omega)]
    obtain ⟨f, hf'⟩ : ∃ f, fuel - (R + 1).toNat = f + 1 :=
      ⟨fuel - (R + 1).toNat - 1, by omega⟩
    rw [hf', outerLoop_stop B R M _ f _ _ _ (by omega)]
    simp

/-! ## Traces -/

theorem selections_append (a b : List Event) :
    selections (a ++ b) = selections a ++ selections b := by
  induction a with
  | nil => rfl
  | cons x t ih => cases x <;> simp [selections, ih]

theorem executions_append (a b : List Event) :
    executions (a ++ b) = executions a ++ executions b := by
  induction a with
  | nil => rfl
  | cons x t ih => cases x <;> simp [executions, ih]

theorem lastErr_append (a b : List Event) :
    ∀ e, lastErr (a ++ b) e = lastErr b (lastErr a e) := by
  induction a with
  | nil => intro e; rfl
  | cons x t ih => intro e; cases x <;> simp [lastErr, ih]

theorem lastErr_of_no_executions (t : List Event) (h : executions t = []) :
    ∀ e, lastErr t e = e := by
  induction t with
  | nil => intro e; rfl
  | cons x t ih =>
    intro e
    cases x with
    | next inst => simpa [lastErr] using ih (by simpa [executions] using h) e
    | exec inst e2 => simp [executions] at h

theorem lastErr_getLast (t : List Event) :
    ∀ e, executions t ≠ [] → ∃ inst, (executions t).getLast? = some (inst, lastErr t e) := by
  induction t with
  | nil => intro e h; simp [executions] at h
  | cons x t ih =>
    intro e h
    cases x with
    | next inst => simpa [executions, lastErr] using ih e (by simpa [executions] using h)
    | exec inst e2 =>
      by_cases ht : executions t = []
      · exact ⟨inst, by simp [executions, lastErr, ht, lastErr_of_no_executions t ht]⟩
      · obtain ⟨i2, h2⟩ := ih e2 ht
        refine ⟨i2, ?_⟩
        simp only [executions, lastErr]
        obtain ⟨y, l, hl⟩ := List.exists_cons_of_ne_nil ht
        rw [hl] at h2 ⊢
        rw [List.getLast?_cons_cons]
        exact h2

theorem innerRun_trace {σ : Type} (B : Backend σ) (c : Nat) :
    ∀ (k : Nat) (err : Err) (s : σ),
      selections (innerRun B c k err s).2.2 = []
      ∧ (executions (innerRun B c k err s).2.2).length = k
      ∧ (innerRun B c k err s).1 = lastErr (innerRun B c k err s).2.2 err
      ∧ ∀ x ∈ executions (innerRun B c k err s).2.2, x.1 = c := by
  intro k
  induction k with
  | zero => intro err s; simp [innerRun, selections, executions, lastErr]
  | succ k ih =>
    intro err s
    obtain ⟨h1, h2, h3, h4⟩ := ih (B.exec c s).1 (B.exec c s).2
    refine ⟨?_, ?_, ?_, ?_⟩
    · simpa [innerRun, selections] using h1
    · simp [innerRun, executions, h2]
    · simpa [innerRun, lastErr] using h3
    · intro x hx
      simp only [innerRun, executions, List.mem_cons] at hx
      rcases hx with rfl | hx
      · rfl
      · exact h4 x hx

theorem outerRun_trace {σ : Type} (B : Backend σ) (k : Nat) :
    ∀ (n : Nat) (err : Err) (s : σ),
      (selections (outerRun B k n err s).2.2).length = n
      ∧ (executions (outerRun B k n err s).2.2).length = n * k
      ∧ (outerRun B k n err s).1 = lastErr (outerRun B k n err s).2.2 err := by
  intro n
  induction n with
  | zero => intro err s; simp [outerRun, selections, executions, lastErr]
  | succ n ih =>
    intro err s
    obtain ⟨i1, i2, i3, _⟩ := innerRun_trace B (B.next s).1 k err (B.next s).2
    obtain ⟨h1, h2, h3⟩ := ih (innerRun B (B.next s).1 k err (B.next s).2).1
      (innerRun B (B.next s).1 k err (B.next s).2).2.1
    refine ⟨?_, ?_, ?_⟩
    · simp [outerRun, selections, selections_append, i1, h1]
    · simp only [outerRun, executions, executions_append, List.length_append, i2, h2]
      ring
    · simp only [outerRun, lastErr, lastErr_append]
      rw [← i3]
      exact h3

/-- With `MaxRetries` the largest `int` and executions that always fail, the inner loop
never leaves: `j <= MaxRetries` holds for every value the counter can take. -/
theorem innerLoop_spins {σ : Type} (B : Backend σ) (c : Nat)
    (hf : ∀ inst s, (B.exec inst s).1.isFailure = true) :
    ∀ (fuel : Nat) (j : Int) (err : Err) (s : σ), j ≤ 9223372036854775807 →
      (innerLoop B 9223372036854775807 c fuel j err s).1 = Ctl.spin := by
  intro fuel
  induction fuel with
  | zero => intro j err s _; rfl
  | succ f ih =>
    intro j err s hj
    have hstop := isFailure_not_stop (hf c s)
    simp only [innerLoop, hj, if_true, hstop, if_false]
    exact ih _ _ _ (wrapInt_range _).2

theorem outerLoop_spins {σ : Type} (B : Backend σ) (R : Int) (inner : Nat) (hR : 0 ≤ R)
    (hf : ∀ inst s, (B.exec inst s).1.isFailure = true) (fuel : Nat) (err : Err) (s : σ) :
    (outerLoop B R 9223372036854775807 inner fuel 0 err s).1 = Ctl.spin := by
  cases fuel with
  | zero => rfl
  | succ f =>
    have h := innerLoop_spins B (B.next s).1 hf inner 0 err (B.next s).2 (by omega)
    simp only [outerLoop, hR, if_true]
    split <;> simp_all

theorem newClusterClient_clopt (o : ClusterOptions) (c : ClusterClient)
    (h : NewClusterClient o = some c) : c.clopt = o.init ∧ o.Addrs ≠ [] := by
  rw [newClusterClient_eq] at h
  cases ha : o.Addrs with
  | nil => simp [ha] at h
  | cons a t =>
    simp only [ha, List.map_cons, List.getElem?_cons_zero, Option.some.injEq] at h
    subst h
    simp

/-- The per-instance records of a built client: one per address, in address order, each
the composite literal of `NewClusterClient` for its address. -/
theorem newClusterClient_opts (o : ClusterOptions) (c : ClusterClient)
    (h : NewClusterClient o = some c) :
    c.balance.opts = o.Addrs.map (mkOpt o.init) ∧ c.balance.opts.length = o.Addrs.length := by
  rw [newClusterClient_eq] at h
  cases ha : o.Addrs with
  | nil => simp [ha] at h
  | cons a t =>
    simp only [ha, List.map_cons, List.getElem?_cons_zero, Option.some.injEq] at h
    subst h
    simp

/-- The effective `FailoverRetries` of a built client is at most the pool size and is
never zero: a configured zero has become the default. -/
theorem newClusterClient_failoverRetries (o : ClusterOptions) (c : ClusterClient)
    (h : NewClusterClient o = some c) :
    c.clopt.FailoverRetries ≤ o.lenAddrs ∧ c.clopt.FailoverRetries ≠ 0 := by
  obtain ⟨hclopt, hne⟩ := newClusterClient_clopt o c h
  have hN : 1 ≤ o.Addrs.length := List.length_pos.2 hne
  have hlen : o.lenAddrs = (o.Addrs.length : Int) := rfl
  rw [hclopt, init_FailoverRetries]
  split_ifs <;> omega

theorem innerLoop_negative {σ : Type} (B : Backend σ) (M : Int) (c fuel : Nat) (err : Err)
    (s : σ) (hM : M < 0) :
    (innerLoop B M c fuel 0 err s).2.2 = []
    ∧ ((innerLoop B M c fuel 0 err s).1 = Ctl.spin
        ∨ (innerLoop B M c fuel 0 err s).1 = Ctl.done err) := by
  cases fuel with
  | zero => exact ⟨rfl, Or.inl rfl⟩
  | succ f =>
    rw [innerLoop_stop B M c f 0 err s (by omega)]
    exact ⟨rfl, Or.inr rfl⟩

/-- With a negative `MaxRetries` no budget ever reaches an execution. -/
theorem outerLoop_no_execution {σ : Type} (B : Backend σ) (R M : Int) (inner : Nat)
    (hM : M < 0) :
    ∀ (fuel : Nat) (i : Int) (err : Err) (s : σ),
      executions (outerLoop B R M inner fuel i err s).2.2 = [] := by
  intro fuel
  induction fuel with
  | zero => intro i err s; rfl
  | succ f ih =>
    intro i err s
    obtain ⟨ht, _⟩ := innerLoop_negative B M (B.next s).1 inner err (B.next s).2 hM
    simp only [outerLoop]
    split_ifs with hi
    · split <;> simp [executions, executions_append, ht, ih]
    · rfl

/-- With both limits non-negative the first round executes the command. -/
theorem processWith_executes {σ : Type} (B : Backend σ) (R M : Int) (s : σ) (hR : 0 ≤ R)
    (hM : 0 ≤ M) : executions (processWith B R M 1 s).trace ≠ [] := by
  simp only [processWith, outerLoop, hR, if_true, innerLoop, hM]
  split_ifs <;> simp [executions]

/-! ## Round-robin selection -/

theorem execState_cursor {σ : Type} (B : Backend σ) (N : Nat) (cursor : σ → Nat)
    (hrr : IsRoundRobin B N cursor) (c : Nat) :
    ∀ (k : Nat) (s : σ), cursor (execState B c k s) = cursor s := by
  intro k
  induction k with
  | zero => intro s; rfl
  | succ k ih => intro s; simp only [execState, ih, hrr.exec_cursor]

/-- Under round-robin selection the rounds of an exhausted call go to consecutive
instances, starting at the cursor. -/
theorem outerRun_selections_roundRobin {σ : Type} (B : Backend σ) (N : Nat)
    (cursor : σ → Nat) (hrr : IsRoundRobin B N cursor) (k : Nat) :
    ∀ (n : Nat) (err : Err) (s : σ),
      selections (outerRun B k n err s).2.2
        = (List.range n).map (fun i => (cursor s + i) % N) := by
  intro n
  induction n with
  | zero => intro err s; rfl
  | succ n ih =>
    intro err s
    obtain ⟨i1, _, _, _⟩ := innerRun_trace B (B.next s).1 k err (B.next s).2
    have hcur : cursor (innerRun B (B.next s).1 k err (B.next s).2).2.1 = cursor s + 1 := by
      rw [innerRun_state, execState_cursor B N cursor hrr, hrr.next_cursor]
    simp only [outerRun, selections, selections_append, i1, List.nil_append, ih, hcur]
    simp only [List.range_succ_eq_map, List.map_cons, List.map_map, hrr.next_inst,
      Nat.add_zero]
    congr 1
    apply List.map_congr_left
    intro i _
    simp only [Function.comp, Nat.succ_eq_add_one]
    congr 1
    omega

/-- Consecutive round-robin picks are pairwise distinct exactly when there are at most as
many of them as instances. -/
theorem nodup_roundRobin (N c n : Nat) (hN : 1 ≤ N) :
    ((List.range n).map (fun i => (c + i) % N)).Nodup ↔ n ≤ N := by
  rw [List.nodup_map_iff_inj_on (List.nodup_range n)]
  constructor
  · intro h
    by_contra hcon
    have h0 := h 0 (List.mem_range.2 (by omega)) N (List.mem_range.2 (by omega))
      (by simp)
    omega
  · intro hn x hx y hy hxy
    have hx' := List.mem_range.1 hx
    have hy' := List.mem_range.1 hy
    have hmod : x ≡ y [MOD N] := Nat.ModEq.add_left_cancel' c hxy
    unfold Nat.ModEq at hmod
    rwa [Nat.mod_eq_of_lt (by omega), Nat.mod_eq_of_lt (by omega)] at hmod

/-! ## Claims about command dispatch -/

/-- C1 (as amended): for every client whose effective `FailoverRetries = R` and
`MaxRetries = M` satisfy `0 <= R`, `0 <= M` and are both below the largest `int`, and
every command whose every execution returns an error other than `nil` and `redis.Nil`,
`Process` returns; it has then made exactly `R + 1` calls to `Next()` and
`(R + 1) * (M + 1)` executions, and the error it returns is the one produced by the last
execution. -/
theorem C1_exhausted_call_returns_last_error {σ : Type} (c : ClusterClient) (B : Backend σ)
    (s : σ) (hR0 : 0 ≤ c.clopt.FailoverRetries) (hR : c.clopt.FailoverRetries < intMax)
    (hM0 : 0 ≤ c.clopt.MaxRetries) (hM : c.clopt.MaxRetries < intMax)
    (hfail : ∀ inst s', (B.exec inst s').1.isFailure = true) :
    ∃ fuel0, ∀ fuel, fuel0 ≤ fuel →
      ∃ e inst, (c.Process B fuel s).result = some e
        ∧ ((selections (c.Process B fuel s).trace).length : Int) = c.clopt.FailoverRetries + 1
        ∧ ((executions (c.Process B fuel s).trace).length : Int)
            = (c.clopt.FailoverRetries + 1) * (c.clopt.MaxRetries + 1)
        ∧ (executions (c.Process B fuel s).trace).getLast? = some (inst, e) := by
  unfold intMax at hR hM
  refine ⟨(c.clopt.FailoverRetries + 1).toNat + (c.clopt.MaxRetries + 1).toNat + 1, ?_⟩
  intro fuel hfuel
  obtain ⟨h1, _, h3⟩ := processWith_exhaust B c.clopt.FailoverRetries c.clopt.MaxRetries fuel s
    hR hM (Or.inr hfail) (by omega) (by omega)
  obtain ⟨t1, t2, t3⟩ := outerRun_trace B (c.clopt.MaxRetries + 1).toNat
    (c.clopt.FailoverRetries + 1).toNat Err.nil s
  have hne : executions (c.Process B fuel s).trace ≠ [] := by
    intro h0
    have hlen := congrArg List.length h0
    unfold ClusterClient.Process at hlen
    rw [h3, t2] at hlen
    have hpos : 0 < (c.clopt.FailoverRetries + 1).toNat * (c.clopt.MaxRetries + 1).toNat :=
      Nat.mul_pos (by omega) (by omega)
    simp at hlen
    omega
  obtain ⟨inst, hlast⟩ := lastErr_getLast (c.Process B fuel s).trace Err.nil hne
  refine ⟨_, inst, h1, ?_, ?_, ?_⟩
  · unfold ClusterClient.Process
    rw [h3, t1]
    omega
  · unfold ClusterClient.Process
    rw [h3, t2]
    push_cast
    rw [Int.toNat_of_nonneg (by omega), Int.toNat_of_nonneg (by omega)]
  · rw [hlast]
    unfold ClusterClient.Process
    rw [h3, ← t3]

/-- C1 (witness): a client with `FailoverRetries = 1`, `MaxRetries = 2` over a round-robin
pool of two instances on which every execution fails. -/
theorem C1_exhausted_call_returns_last_error_witness :
    ∃ fuel0, ∀ fuel, fuel0 ≤ fuel →
      ∃ e inst, ((clientWith 1 2).Process (rrFailing 2) fuel 0).result = some e
        ∧ ((selections ((clientWith 1 2).Process (rrFailing 2) fuel 0).trace).length : Int)
            = (clientWith 1 2).clopt.FailoverRetries + 1
        ∧ ((executions ((clientWith 1 2).Process (rrFailing 2) fuel 0).trace).length : Int)
            = ((clientWith 1 2).clopt.FailoverRetries + 1)
                * ((clientWith 1 2).clopt.MaxRetries + 1)
        ∧ (executions ((clientWith 1 2).Process (rrFailing 2) fuel 0).trace).getLast?
            = some (inst, e) :=
  C1_exhausted_call_returns_last_error (clientWith 1 2) (rrFailing 2) 0
    (by decide) (by decide) (by decide) (by decide) (fun _ _ => rfl)

/-- C1 (counterexample): options with one address, `FailoverRetries = 1` and
`MaxRetries` the largest `int` build a client with effective `FailoverRetries = 1 >= 0`
and `MaxRetries >= 0`; on a command that always fails its `Process` never returns, under
any iteration budget, so it returns no error at all. -/
theorem C1_counterexample_maxRetries_maxInt :
    (NewClusterClient (oneAddr 1 9223372036854775807)).map
      (fun c => (c.clopt.FailoverRetries, c.clopt.MaxRetries))
      = some (1, 9223372036854775807)
    ∧ ¬ ∃ (fuel : Nat) (e : Err),
        (NewClusterClient (oneAddr 1 9223372036854775807)).map
          (fun c => (c.Process (rrFailing 1) fuel 0).result)
          = some (some e) := by
  refine ⟨by decide, ?_⟩
  rintro ⟨fuel, e, h⟩
  have hspin := outerLoop_spins (rrFailing 1) 1 fuel (by decide) (fun _ _ => rfl) fuel Err.nil 0
  obtain ⟨c, hc, hR, hM⟩ : ∃ c, NewClusterClient (oneAddr 1 9223372036854775807) = some c
      ∧ c.clopt.FailoverRetries = 1 ∧ c.clopt.MaxRetries = 9223372036854775807 :=
    ⟨_, rfl, rfl, rfl⟩
  rw [hc] at h
  simp only [Option.map_some', ClusterClient.Process, processWith, Option.some.injEq, hR, hM]
    at h
  rw [hspin] at h
  simp at h

/-- C2: for every pool and every client with `FailoverRetries >= 0` and `MaxRetries >= 0`,
if the first execution of the command returns `redis.Nil`, `Process` returns exactly
`redis.Nil` after exactly one `Next()` call and exactly one execution. -/
theorem C2_no_value_returns_at_once {σ : Type} (c : ClusterClient) (B : Backend σ) (s : σ)
    (hR : 0 ≤ c.clopt.FailoverRetries) (hM : 0 ≤ c.clopt.MaxRetries)
    (h : (B.exec (B.next s).1 (B.next s).2).1 = Err.redisNil) :
    ∀ fuel, 1 ≤ fuel →
      (c.Process B fuel s).result = some Err.redisNil
      ∧ (c.Process B fuel s).trace
          = [Event.next (B.next s).1, Event.exec (B.next s).1 Err.redisNil] := by
  intro fuel hfuel
  obtain ⟨f, rfl⟩ : ∃ f, fuel = f + 1 := ⟨fuel - 1, by omega⟩
  simp [ClusterClient.Process, processWith, outerLoop, innerLoop, hR, hM, h]

/-- C2 (witness): a client with `FailoverRetries = 3`, `MaxRetries = 2` over a pool of
three instances that answer `redis.Nil`, under an iteration budget of five. -/
theorem C2_no_value_returns_at_once_witness :
    ((clientWith 3 2).Process (rrNoValue 3) 5 7).result = some Err.redisNil
    ∧ ((clientWith 3 2).Process (rrNoValue 3) 5 7).trace
        = [Event.next ((rrNoValue 3).next 7).1,
           Event.exec ((rrNoValue 3).next 7).1 Err.redisNil] :=
  C2_no_value_returns_at_once (clientWith 3 2) (rrNoValue 3) 7 (by decide) (by decide) rfl 5
    (by decide)

/-- C3: for every client with `FailoverRetries >= 0` and `MaxRetries = M >= 0` (an `int`),
if the first selected instance fails the command on its first `M` executions and answers
`nil` on execution `M + 1`, `Process` returns `nil`, having called `Next()` exactly once
and executed the command exactly `M + 1` times, all on that instance. -/
theorem C3_success_on_last_retry {σ : Type} (c : ClusterClient) (B : Backend σ) (s : σ)
    (hR : 0 ≤ c.clopt.FailoverRetries) (hM0 : 0 ≤ c.clopt.MaxRetries)
    (hM : c.clopt.MaxRetries ≤ intMax)
    (hfails : ∀ k, k < c.clopt.MaxRetries.toNat →
      (B.exec (B.next s).1 (execState B (B.next s).1 k (B.next s).2)).1.isFailure = true)
    (hok : (B.exec (B.next s).1
      (execState B (B.next s).1 c.clopt.MaxRetries.toNat (B.next s).2)).1 = Err.nil) :
    ∃ fuel0, ∀ fuel, fuel0 ≤ fuel →
      (c.Process B fuel s).result = some Err.nil
      ∧ selections (c.Process B fuel s).trace = [(B.next s).1]
      ∧ ((executions (c.Process B fuel s).trace).length : Int) = c.clopt.MaxRetries + 1
      ∧ ∀ x ∈ executions (c.Process B fuel s).trace, x.1 = (B.next s).1 := by
  unfold intMax at hM
  refine ⟨c.clopt.MaxRetries.toNat + 1, ?_⟩
  intro fuel hfuel
  obtain ⟨t1, t2, _, t4⟩ := innerRun_trace B (B.next s).1 c.clopt.MaxRetries.toNat Err.nil
    (B.next s).2
  have hin : innerLoop B c.clopt.MaxRetries (B.next s).1 fuel 0 Err.nil (B.next s).2
      = (Ctl.ret Err.nil,
         (B.exec (B.next s).1
            (execState B (B.next s).1 c.clopt.MaxRetries.toNat (B.next s).2)).2,
         (innerRun B (B.next s).1 c.clopt.MaxRetries.toNat Err.nil (B.next s).2).2.2
           ++ [Event.exec (B.next s).1 Err.nil]) := by
    rw [innerLoop_peel B c.clopt.MaxRetries (B.next s).1 c.clopt.MaxRetries.toNat fuel 0
      Err.nil (B.next s).2 hfails (le_refl 0) (by omega) (by omega) (by omega)]
    obtain ⟨f, hf'⟩ : ∃ f, fuel - c.clopt.MaxRetries.toNat = f + 1 :=
      ⟨fuel - c.clopt.MaxRetries.toNat - 1, by omega⟩
    have hj : (0 : Int) + (c.clopt.MaxRetries.toNat : Int) ≤ c.clopt.MaxRetries := by omega
    rw [hf']
    simp only [innerLoop, hj, if_true, innerRun_state, hok, true_or]
  obtain ⟨f, rfl⟩ : ∃ f, fuel = f + 1 := ⟨fuel - 1, by omega⟩
  unfold ClusterClient.Process processWith
  simp only [outerLoop, hR, if_true, hin]
  refine ⟨trivial, ?_, ?_, ?_⟩
  · simp [selections, selections_append, t1]
  · simp only [executions, executions_append, List.length_append, t2, List.length_singleton]
    omega
  · intro x hx
    simp only [executions, executions_append, List.mem_append, List.mem_singleton] at hx
    rcases hx with hx | rfl
    · exact t4 x hx
    · rfl

/-- C3 (witness): `MaxRetries = 2` over a pool of two instances on which the first two
executions fail and the third succeeds. -/
theorem C3_success_on_last_retry_witness :
    ∃ fuel0, ∀ fuel, fuel0 ≤ fuel →
      ((clientWith 1 2).Process (rrFailsThenOk 2 2) fuel (1, 0)).result = some Err.nil
      ∧ selections ((clientWith 1 2).Process (rrFailsThenOk 2 2) fuel (1, 0)).trace
          = [((rrFailsThenOk 2 2).next (1, 0)).1]
      ∧ ((executions ((clientWith 1 2).Process (rrFailsThenOk 2 2) fuel (1, 0)).trace).length
            : Int) = (clientWith 1 2).clopt.MaxRetries + 1
      ∧ ∀ x ∈ executions ((clientWith 1 2).Process (rrFailsThenOk 2 2) fuel (1, 0)).trace,
          x.1 = ((rrFailsThenOk 2 2).next (1, 0)).1 :=
  C3_success_on_last_retry (clientWith 1 2) (rrFailsThenOk 2 2) (1, 0)
    (by decide) (by decide) (by decide) (by decide) (by decide)

/-- C9: for every client whose effective `FailoverRetries` is below the largest `int` (it
always is, being at most `len(Addrs)`), `Process` executes the command at least once if
and only if `FailoverRetries >= 0` and `MaxRetries >= 0`; when either is negative
`Process` returns `nil` without executing the command on any instance. -/
theorem C9_executes_iff_limits_nonnegative {σ : Type} (c : ClusterClient) (B : Backend σ)
    (s : σ) (hR : c.clopt.FailoverRetries < intMax) :
    ((∃ fuel, executions (c.Process B fuel s).trace ≠ [])
        ↔ (0 ≤ c.clopt.FailoverRetries ∧ 0 ≤ c.clopt.MaxRetries))
    ∧ ((c.clopt.FailoverRetries < 0 ∨ c.clopt.MaxRetries < 0) →
        ∃ fuel0, ∀ fuel, fuel0 ≤ fuel →
          (c.Process B fuel s).result = some Err.nil
          ∧ executions (c.Process B fuel s).trace = []) := by
  unfold intMax at hR
  have hneg : (c.clopt.FailoverRetries < 0 ∨ c.clopt.MaxRetries < 0) →
      ∃ fuel0, ∀ fuel, fuel0 ≤ fuel →
        (c.Process B fuel s).result = some Err.nil
        ∧ executions (c.Process B fuel s).trace = [] := by
    intro h
    by_cases hR0 : c.clopt.FailoverRetries < 0
    · refine ⟨1, fun fuel hfuel => ?_⟩
      obtain ⟨f, rfl⟩ : ∃ f, fuel = f + 1 := ⟨fuel - 1, by omega⟩
      unfold ClusterClient.Process processWith
      rw [outerLoop_stop B _ _ _ f _ _ _ (by omega)]
      exact ⟨rfl, rfl⟩
    · have hM : c.clopt.MaxRetries < 0 := by
        rcases h with h | h
        · exact absurd h hR0
        · exact h
      refine ⟨(c.clopt.FailoverRetries + 1).toNat + 1, fun fuel hfuel => ?_⟩
      have hk : (c.clopt.MaxRetries + 1).toNat = 0 := by omega
      obtain ⟨h1, _, h3⟩ := processWith_exhaust B c.clopt.FailoverRetries c.clopt.MaxRetries
        fuel s (by omega) (by omega) (Or.inl hk) (by omega) (by omega)
      obtain ⟨_, t2, t3⟩ := outerRun_trace B (c.clopt.MaxRetries + 1).toNat
        (c.clopt.FailoverRetries + 1).toNat Err.nil s
      have hnone : executions (outerRun B (c.clopt.MaxRetries + 1).toNat
          (c.clopt.FailoverRetries + 1).toNat Err.nil s).2.2 = [] := by
        apply List.eq_nil_of_length_eq_zero
        rw [t2, hk, Nat.mul_zero]
      unfold ClusterClient.Process
      rw [h1, h3, t3, lastErr_of_no_executions _ hnone]
      exact ⟨rfl, hnone⟩
  refine ⟨⟨?_, ?_⟩, hneg⟩
  · rintro ⟨fuel, hex⟩
    by_contra hcon
    have hcase : c.clopt.FailoverRetries < 0 ∨ c.clopt.MaxRetries < 0 := by omega
    apply hex
    by_cases hR0 : c.clopt.FailoverRetries < 0
    · unfold ClusterClient.Process processWith
      cases fuel with
      | zero => rfl
      | succ f =>
        rw [outerLoop_stop B _ _ _ f _ _ _ (by omega)]
        rfl
    · have hM : c.clopt.MaxRetries < 0 := by omega
      exact outerLoop_no_execution B _ _ _ hM _ _ _ _
  · rintro ⟨hR0, hM⟩
    exact ⟨1, processWith_executes B _ _ s hR0 hM⟩

/-- C9 (witness): a client with `FailoverRetries = 0` and `MaxRetries = 0` executes the
command, and a client with `FailoverRetries = 0` and `MaxRetries = -1` returns `nil`
without an execution. -/
theorem C9_executes_iff_limits_nonnegative_witness :
    (∃ fuel, executions ((clientWith 0 0).Process (rrFailing 1) fuel 0).trace ≠ [])
    ∧ ∃ fuel0, ∀ fuel, fuel0 ≤ fuel →
        ((clientWith 0 (-1)).Process (rrFailing 1) fuel 0).result = some Err.nil
        ∧ executions ((clientWith 0 (-1)).Process (rrFailing 1) fuel 0).trace = [] :=
  ⟨(C9_executes_iff_limits_nonnegative (clientWith 0 0) (rrFailing 1) 0 (by decide)).1.2
      ⟨by decide, by decide⟩,
    (C9_executes_iff_limits_nonnegative (clientWith 0 (-1)) (rrFailing 1) 0 (by decide)).2
      (Or.inr (by decide))⟩

/-- C6 (counterexample): two addresses with `FailoverRetries` unset give the effective
value `2`, the pool size; on a round-robin pool of two instances a command that always
fails is tried on instances `0, 1, 0`: three attempts, the third on the instance tried
first, so the instances tried are not pairwise distinct. -/
theorem C6_counterexample_revisits_first_instance :
    (NewClusterClient (poolOptions ["10.0.0.1:6379", "10.0.0.2:6379"] 0 0)).map
      (fun c =>
        (c.clopt.FailoverRetries,
         (c.Process (rrFailing 2) 4 0).result,
         selections (c.Process (rrFailing 2) 4 0).trace,
         decide (selections (c.Process (rrFailing 2) 4 0).trace).Nodup))
      = some (2, some (Err.other 0), [0, 1, 0], false) := by
  decide

/-- C6 (as amended): for every client built by `NewClusterClient` over a round-robin pool
of `N = len(Addrs)` instances, with `MaxRetries` below the largest `int`, `Process` on a
command that always fails returns after trying `FailoverRetries + 1` instances in
round-robin order from the cursor (none when `FailoverRetries` is negative); they are
pairwise distinct exactly when the effective `FailoverRetries` is below `N`. -/
theorem C6_failover_visits_in_roundRobin_order {σ : Type} (o : ClusterOptions)
    (c : ClusterClient) (B : Backend σ) (cursor : σ → Nat) (s : σ)
    (hrr : IsRoundRobin B o.Addrs.length cursor) (hlen : o.lenAddrs < intMax)
    (hM : o.MaxRetries < intMax) (hc : NewClusterClient o = some c)
    (hfail : ∀ inst s', (B.exec inst s').1.isFailure = true) :
    ∃ fuel0, ∀ fuel, fuel0 ≤ fuel →
      (c.Process B fuel s).result.isSome = true
      ∧ selections (c.Process B fuel s).trace
          = (List.range (c.clopt.FailoverRetries + 1).toNat).map
              (fun i => (cursor s + i) % o.Addrs.length)
      ∧ ((selections (c.Process B fuel s).trace).Nodup
          ↔ c.clopt.FailoverRetries < o.lenAddrs) := by
  unfold intMax at hlen hM
  obtain ⟨hclopt, hne⟩ := newClusterClient_clopt o c hc
  have hN : 1 ≤ o.Addrs.length := List.length_pos.2 hne
  have hRle : c.clopt.FailoverRetries ≤ o.lenAddrs := by
    rw [hclopt, init_FailoverRetries]
    exact min_le_right _ _
  have hMeq : c.clopt.MaxRetries = o.MaxRetries := by rw [hclopt, init_MaxRetries]
  refine ⟨(c.clopt.FailoverRetries + 1).toNat + (c.clopt.MaxRetries + 1).toNat + 1, ?_⟩
  intro fuel hfuel
  obtain ⟨h1, _, h3⟩ := processWith_exhaust B c.clopt.FailoverRetries c.clopt.MaxRetries fuel s
    (by omega) (by omega) (Or.inr hfail) (by omega) (by omega)
  have hsel := outerRun_selections_roundRobin B o.Addrs.length cursor hrr
    (c.clopt.MaxRetries + 1).toNat (c.clopt.FailoverRetries + 1).toNat Err.nil s
  unfold ClusterClient.Process
  rw [h1, h3, hsel]
  refine ⟨rfl, rfl, ?_⟩
  rw [nodup_roundRobin _ _ _ hN]
  unfold ClusterOptions.lenAddrs at hRle ⊢
  omega

/-- C6 (witness): three addresses with a configured `FailoverRetries = 1` over a
round-robin pool of three always-failing instances. -/
theorem C6_failover_visits_in_roundRobin_order_witness :
    ∃ c, NewClusterClient (poolOptions ["10.0.0.1:6379", "10.0.0.2:6379", "10.0.0.3:6379"] 1 0)
        = some c
      ∧ ∃ fuel0, ∀ fuel, fuel0 ≤ fuel →
          (c.Process (rrFailing 3) fuel 2).result.isSome = true
          ∧ selections (c.Process (rrFailing 3) fuel 2).trace
              = (List.range (c.clopt.FailoverRetries + 1).toNat).map
                  (fun i => (id 2 + i)
                    % (poolOptions ["10.0.0.1:6379", "10.0.0.2:6379", "10.0.0.3:6379"] 1
                        0).Addrs.length)
          ∧ ((selections (c.Process (rrFailing 3) fuel 2).trace).Nodup
              ↔ c.clopt.FailoverRetries
                  < (poolOptions ["10.0.0.1:6379", "10.0.0.2:6379", "10.0.0.3:6379"] 1
                      0).lenAddrs) :=
  ⟨_, rfl,
    C6_failover_visits_in_roundRobin_order
      (poolOptions ["10.0.0.1:6379", "10.0.0.2:6379", "10.0.0.3:6379"] 1 0) _ (rrFailing 3) id 2
      ⟨fun _ => rfl, fun _ => rfl, fun _ _ => rfl⟩ (by decide) (by decide) rfl
      (fun _ _ => rfl)⟩

/-- C7 (counterexample): options with one address and `FailoverRetries = 0` build a client
whose `Process`, on a command that always fails, calls `Next()` twice: the zero is
replaced by the default `3` and clamped to the pool size `1`, so one failover is made. -/
theorem C7_counterexample_zero_is_the_default :
    (NewClusterClient (oneAddr 0 0)).map
      (fun c =>
        (c.clopt.FailoverRetries,
         (c.Process (rrFailing 1) 3 0).result,
         (c.Process (rrFailing 1) 3 0).trace))
      = some (1, some (Err.other 0),
          [Event.next 0, Event.exec 0 (Err.other 0), Event.next 0,
           Event.exec 0 (Err.other 0)]) := by
  decide

/-- C7 (as amended): for every client built by `NewClusterClient` from options with
`FailoverRetries = 0` (and so at least one address) and `MaxRetries` below the largest
`int`, `Process` on a command that always fails returns after exactly `min(3, n) + 1`
calls to `Next()`, `n = len(Addrs)`: at least two, so at least one failover is made. -/
theorem C7_unset_failoverRetries_fails_over {σ : Type} (o : ClusterOptions)
    (c : ClusterClient) (B : Backend σ) (s : σ) (hf0 : o.FailoverRetries = 0)
    (hM : o.MaxRetries < intMax) (hc : NewClusterClient o = some c)
    (hfail : ∀ inst s', (B.exec inst s').1.isFailure = true) :
    ∃ fuel0, ∀ fuel, fuel0 ≤ fuel →
      (c.Process B fuel s).result.isSome = true
      ∧ ((selections (c.Process B fuel s).trace).length : Int) = min 3 o.lenAddrs + 1
      ∧ 2 ≤ (selections (c.Process B fuel s).trace).length := by
  unfold intMax at hM
  obtain ⟨hclopt, hne⟩ := newClusterClient_clopt o c hc
  have hN : 1 ≤ o.Addrs.length := List.length_pos.2 hne
  have hR : c.clopt.FailoverRetries = min 3 o.lenAddrs := by
    rw [hclopt, init_FailoverRetries, hf0]
    simp
  have hMeq : c.clopt.MaxRetries = o.MaxRetries := by rw [hclopt, init_MaxRetries]
  have hlen : o.lenAddrs = (o.Addrs.length : Int) := rfl
  refine ⟨(c.clopt.FailoverRetries + 1).toNat + (c.clopt.MaxRetries + 1).toNat + 1, ?_⟩
  intro fuel hfuel
  obtain ⟨h1, _, h3⟩ := processWith_exhaust B c.clopt.FailoverRetries c.clopt.MaxRetries fuel s
    (by omega) (by omega) (Or.inr hfail) (by omega) (by omega)
  obtain ⟨t1, _, _⟩ := outerRun_trace B (c.clopt.MaxRetries + 1).toNat
    (c.clopt.FailoverRetries + 1).toNat Err.nil s
  unfold ClusterClient.Process
  rw [h1, h3, t1]
  refine ⟨rfl, ?_, ?_⟩ <;> omega

/-- C7 (witness): one address, `FailoverRetries = 0`, `MaxRetries = 0`. -/
theorem C7_unset_failoverRetries_fails_over_witness :
    ∃ c, NewClusterClient (oneAddr 0 0) = some c
      ∧ ∃ fuel0, ∀ fuel, fuel0 ≤ fuel →
          (c.Process (rrFailing 1) fuel 0).result.isSome = true
          ∧ ((selections (c.Process (rrFailing 1) fuel 0).trace).length : Int)
              = min 3 (oneAddr 0 0).lenAddrs + 1
          ∧ 2 ≤ (selections (c.Process (rrFailing 1) fuel 0).trace).length :=
  ⟨_, rfl,
    C7_unset_failoverRetries_fails_over (oneAddr 0 0) _ (rrFailing 1) 0 rfl (by decide) rfl
      (fun _ _ => rfl)⟩

end XRedis
